import Mathlib

/-!
Simple physics simulator: falling object with drag, wind and ground bounce.

A shallow embedding of `src/main.cpp`, in two readings of the type `double`.

The exact model.  Every `double` is an element of an arbitrary linearly ordered field
`K` with a floor function, so that the arithmetic is exact; the `int` variables are
unbounded integers.  It is used for the properties of the control structure that do not
depend on rounding (the ground clamp of a tick, the bookkeeping of the trail, the
threshold of `adjustDragCoefficient`) and for the two scenario runs, which stay far
from overflow, underflow and NaN.  The definitions are computable and can be run at
`K = ℚ`; the drag scenario is read at `K = ℝ` with `Real.exp`.

The binary64 model (namespace `Binary64`).  Every `double` is a value of IEEE 754
binary64: a NaN, an infinity, or a finite number given by its sign and its magnitude.
Each operation of the source is one operation of the model, rounded to nearest with
ties to even, overflowing to an infinity, with the signed zeros and the NaN results of
the standard; nothing is evaluated in a wider format and no two operations are fused.
A decimal literal is the nearest double.  The conversion `static_cast<int>` discards the
fractional part; where C++ leaves it undefined (a NaN, an infinity, an integer part
that is not a 32-bit `int`) it yields a value that the model takes as a parameter.
This model is used wherever rounding, overflow, underflow or NaN decide the property.

In both models the library functions `exp` and `sin` and the results of the successive
calls of `rand()` are parameters (`Env`), and console output is represented by the
values that are printed.
-/

namespace PhysicsSim

section Model

variable {K : Type} [LinearOrderedField K]

/-- The constant `GRAVITY` (main.cpp, line 11). -/
def GRAVITY : K := 9.81

/-- The function `calculateDragForce` (main.cpp, lines 22-25). -/
def calculateDragForce (dragCoefficient crossSectionalArea airDensity velocity : K) : K :=
  0.5 * dragCoefficient * crossSectionalArea * airDensity * velocity * velocity

/-- The function `calculateGravitationalForce` (main.cpp, lines 33-36). -/
def calculateGravitationalForce (mass : K) : K :=
  mass * GRAVITY

/-- The function `calculateAirDensity` (main.cpp, lines 44-49); `exp` is the library
exponential. -/
def calculateAirDensity (exp : K → K) (altitude : K) : K :=
  let seaLevelDensity : K := 1.225
  let scaleHeight : K := 8500.0
  seaLevelDensity * exp (-altitude / scaleHeight)

/-- The function `adjustDragCoefficient` (main.cpp, lines 58-65). -/
def adjustDragCoefficient (dragCoefficient windSpeed : K) : K :=
  if |windSpeed| > 15.0 then dragCoefficient * 1.5
  else dragCoefficient

variable [FloorRing K]

/-- The conversion `static_cast<int>(x)` of a `double` to an integer: the fractional
part is discarded (truncation toward zero). -/
def toInt (x : K) : Int :=
  if 0 ≤ x then ⌊x⌋ else ⌈x⌉

/-- The step index computed at the start of `displayFallingObject`
(main.cpp, lines 76-79). -/
def currentStepOf (position initialHeight : K) : Int :=
  let steps : Int := 20
  let currentStep : Int := toInt (((initialHeight - position) / initialHeight) * (steps : K))
  let currentStep : Int := if currentStep ≥ steps then steps - 1 else currentStep
  if currentStep < 0 then 0 else currentStep

/-- One row of the 20-row track drawn by `displayFallingObject`. -/
inductive Row where
  | object
  | faded
  | blank
  deriving DecidableEq, Repr

/-- The function `displayFallingObject` (main.cpp, lines 74-95): the updated trail and
the rows that are printed above the ground line. -/
def displayFallingObject (position initialHeight : K) (trail : List Int) :
    List Int × List Row :=
  let currentStep := currentStepOf position initialHeight
  let trail := trail ++ [currentStep]
  let trail := if trail.length > 5 then trail.tail else trail
  (trail, (List.range 20).map fun i =>
    if (i : Int) = currentStep then Row.object
    else if (i : Int) ∈ trail then Row.faded
    else Row.blank)

/-- The arguments of `simulateMotion`. -/
structure Params (K : Type) where
  mass : K
  dragCoefficient : K
  crossSectionalArea : K
  airDensity : K
  initialVelocity : K
  initialHeight : K
  windOption : Int
  customWindStrength : K

/-- What the program takes from its libraries: `exp`, `sin`, and the value returned
by the `k`-th call of `rand()` (counted from 0). -/
structure Env (K : Type) where
  exp : K → K
  sin : K → K
  rand : Nat → Int

/-- The local variables of `simulateMotion` that live across iterations of the loop,
and the number of calls of `rand()` made so far. -/
structure MotionState (K : Type) where
  velocity : K
  time : K
  position : K
  trail : List Int
  windDirection : K
  windStrength : K
  randCalls : Nat

/-- The constant `timeStep` of `simulateMotion` (main.cpp, line 118). -/
def timeStep : K := 0.05

/-- The values computed in the first part of the loop body (main.cpp, lines 124-148). -/
structure Forces (K : Type) where
  airDensityAtAltitude : K
  windStrength : K
  windDirection : K
  randCalls : Nat
  wind : K
  adjustedDragCoefficient : K
  dragForce : K
  netForce : K
  acceleration : K

/-- The first part of the loop body, lines 124-148: air density, wind, drag, net force,
acceleration. -/
def forces (env : Env K) (p : Params K) (s : MotionState K) : Forces K :=
  let gravityForce := calculateGravitationalForce p.mass
  let airDensityAtAltitude := calculateAirDensity env.exp s.position
  let windStrength : K :=
    if p.windOption = 0 then env.sin (s.time * 0.5) * 0.5
    else if p.windOption = 1 then 0.0
    else if p.windOption = 2 then p.customWindStrength
    else s.windStrength
  let redraw : Bool := p.windOption = 0 ∧ Int.tmod (toInt s.time) 3 = 0
  let windDirection : K :=
    if redraw then (if Int.tmod (env.rand s.randCalls) 2 = 0 then 1.0 else -1.0)
    else s.windDirection
  let randCalls := if redraw then s.randCalls + 1 else s.randCalls
  let wind := windStrength * windDirection
  let adjustedDragCoefficient := adjustDragCoefficient p.dragCoefficient windStrength
  let dragForce :=
    calculateDragForce adjustedDragCoefficient p.crossSectionalArea airDensityAtAltitude
      |s.velocity|
  let netForce := gravityForce - dragForce + wind
  let acceleration := netForce / p.mass
  { airDensityAtAltitude := airDensityAtAltitude
    windStrength := windStrength
    windDirection := windDirection
    randCalls := randCalls
    wind := wind
    adjustedDragCoefficient := adjustedDragCoefficient
    dragForce := dragForce
    netForce := netForce
    acceleration := acceleration }

/-- The Euler update, lines 150-151: `velocity += acceleration * timeStep;` then
`position -= velocity * timeStep;`.  The result is the pair (velocity, position) before
the ground clamp. -/
def eulerUpdate (acceleration velocity position : K) : K × K :=
  let velocity := velocity + acceleration * timeStep
  let position := position - velocity * timeStep
  (velocity, position)

/-- The ground clamp, lines 153-160, on the pair (velocity, position). -/
def groundClamp (vp : K × K) : K × K :=
  if vp.2 < 0 then
    (if |vp.1| > 1.0 then -vp.1 * 0.6 else 0, 0)
  else vp

/-- The pair (velocity, position) of a tick after the Euler update and before the
ground clamp. -/
def preClamp (env : Env K) (p : Params K) (s : MotionState K) : K × K :=
  eulerUpdate (forces env p s).acceleration s.velocity s.position

/-- One execution of the body of the `while` loop (main.cpp, lines 123-175). -/
def loopBody (env : Env K) (p : Params K) (s : MotionState K) : MotionState K :=
  let f := forces env p s
  let vp := groundClamp (eulerUpdate f.acceleration s.velocity s.position)
  { velocity := vp.1
    time := s.time + timeStep
    position := vp.2
    trail := (displayFallingObject vp.2 p.initialHeight s.trail).1
    windDirection := f.windDirection
    windStrength := f.windStrength
    randCalls := f.randCalls }

/-- The telemetry line printed by a tick (main.cpp, lines 166-171):
time, velocity, height, drag, wind, air density. -/
def telemetry (env : Env K) (p : Params K) (s : MotionState K) : K × K × K × K × K × K :=
  let f := forces env p s
  let s1 := loopBody env p s
  (s.time, s1.velocity, s1.position, f.dragForce, f.wind, f.airDensityAtAltitude)

/-- The state of `simulateMotion` on entry to the loop (main.cpp, lines 112-120). -/
def initialState (p : Params K) : MotionState K :=
  { velocity := p.initialVelocity
    time := 0.0
    position := p.initialHeight
    trail := []
    windDirection := 1.0
    windStrength := 0.0
    randCalls := 0 }

/-- The loop condition `position > 0 || abs(velocity) > 0.5` (main.cpp, line 122). -/
def loopCond (s : MotionState K) : Bool :=
  s.position > 0 ∨ |s.velocity| > 0.5

/-- The `while` loop with a bound on the number of iterations: `none` when the bound
is reached with the condition still true. -/
def whileLoop (env : Env K) (p : Params K) : Nat → MotionState K → Option (MotionState K)
  | 0, s => if loopCond s then none else some s
  | fuel + 1, s => if loopCond s then whileLoop env p fuel (loopBody env p s) else some s

/-- The function `simulateMotion` (main.cpp, lines 109-178): the state on exit from the
loop. -/
def simulateMotion (env : Env K) (p : Params K) (fuel : Nat) : Option (MotionState K) :=
  whileLoop env p fuel (initialState p)

/-- The state after `n` executions of the loop body. -/
def ticks (env : Env K) (p : Params K) (n : Nat) : MotionState K :=
  (loopBody env p)^[n] (initialState p)

/-- The state `Settled` of the specification (section 4.2): the object is on the ground
and its residual speed is at most 0.5. -/
def Settled (s : MotionState K) : Prop :=
  s.position = 0 ∧ |s.velocity| ≤ 0.5

/-- The velocity has changed direction: `before` and `after` are both non-zero and of
opposite sign. -/
def signFlipped (before after : K) : Prop :=
  (0 < before ∧ after < 0) ∨ (before < 0 ∧ 0 < after)

/-- The step indices of the positions observed after ticks `1, ..., n`, in the order
in which the ticks compute them. -/
def stepIndices (env : Env K) (p : Params K) (n : Nat) : List Int :=
  (List.range n).map fun k => currentStepOf (ticks env p (k + 1)).position p.initialHeight

/-- The arguments of the pure-gravity run of the specification (section 8): no wind,
unit mass, no drag, released at rest from height 10.  The arguments that the
specification leaves open are parameters. -/
def gravityRun (crossSectionalArea airDensity customWindStrength : K) : Params K :=
  { mass := 1
    dragCoefficient := 0
    crossSectionalArea := crossSectionalArea
    airDensity := airDensity
    initialVelocity := 0
    initialHeight := 10
    windOption := 1
    customWindStrength := customWindStrength }

/-- The arguments of the drag scenario of the specification (section 8): unit mass,
drag coefficient 0.47, area 0.01, released at rest from height 5, no wind. -/
def dragRun (airDensity customWindStrength : K) : Params K :=
  { mass := 1
    dragCoefficient := 0.47
    crossSectionalArea := 0.01
    airDensity := airDensity
    initialVelocity := 0
    initialHeight := 5
    windOption := 1
    customWindStrength := customWindStrength }

end Model

/-- An environment over the rationals, for running the model: `exp` and `sin` are
replaced by constants and `rand()` always returns 0. -/
def ratEnv : Env ℚ :=
  { exp := fun _ => 1
    sin := fun _ => 0
    rand := fun _ => 0 }

/-! ## The binary64 model -/

namespace Binary64

/-- The power `2 ^ k` of two as a rational number, for an integer exponent. -/
@[irreducible]
def pow2 (k : ℤ) : ℚ :=
  if 0 ≤ k then ((2 ^ k.toNat : ℕ) : ℚ) else 1 / ((2 ^ (-k).toNat : ℕ) : ℚ)

/-- The number of halvings that take `n` below 2, in at most `fuel` steps. -/
def log2Fuel : Nat → Nat → Nat
  | 0, _ => 0
  | fuel + 1, n => if n < 2 then 0 else log2Fuel fuel (n / 2) + 1

/-- The binary logarithm of a natural number, rounded down (0 for 0). -/
def natLog2 (n : Nat) : Nat :=
  log2Fuel n n

/-- The binary exponent of a positive rational `q`: the integer `e` with
`2 ^ e ≤ q < 2 ^ (e + 1)`. -/
def ilog2 (q : ℚ) : ℤ :=
  let k : ℤ := (natLog2 q.num.natAbs : ℤ) - (natLog2 q.den : ℤ)
  if pow2 k ≤ q then k else k - 1

/-- Rounding of a rational to the nearest integer, ties to the even one. -/
def rne (x : ℚ) : ℤ :=
  let f : ℤ := ⌊x⌋
  if x - f < 1 / 2 then f
  else if 1 / 2 < x - f then f + 1
  else if f % 2 = 0 then f
  else f + 1

/-- Rounding of a non-negative rational to the nearest magnitude of the binary64 format
(53 significant bits, least exponent of a unit in the last place `-1074`), ties to
even, before the test for overflow. -/
def rnd (q : ℚ) : ℚ :=
  if q = 0 then 0
  else
    let u : ℤ := max (ilog2 q - 52) (-1074)
    (rne (q / pow2 u) : ℚ) * pow2 u

/-- A value of the type `double` (IEEE 754 binary64): a NaN, an infinity with its sign,
or a finite number given by its sign and its magnitude.  The finite values of the
format are those of `IsDouble`; `fin true 0` is the negative zero. -/
inductive F64 where
  | nan
  | inf (neg : Bool)
  | fin (neg : Bool) (mag : ℚ)
  deriving DecidableEq

namespace F64

/-- The values that the format really has: for a finite one the magnitude is
non-negative, below `2 ^ 1024` and unchanged by rounding. -/
def IsDouble : F64 → Prop
  | nan => True
  | inf _ => True
  | fin _ m => 0 ≤ m ∧ m < pow2 1024 ∧ rnd m = m

instance : DecidablePred IsDouble := fun x =>
  match x with
  | nan => isTrue trivial
  | inf _ => isTrue trivial
  | fin _ m => inferInstanceAs (Decidable (0 ≤ m ∧ m < pow2 1024 ∧ rnd m = m))

/-- The result of an operation whose exact value has sign `neg` and magnitude `mag`:
rounded to nearest, ties to even, with overflow to infinity. -/
def ofRat (neg : Bool) (mag : ℚ) : F64 :=
  let r := rnd mag
  if pow2 1024 ≤ r then inf neg else fin neg r

/-- The value of a finite double as a rational number (0 for the others). -/
def toRat : F64 → ℚ
  | fin s m => if s then -m else m
  | _ => 0

/-- The double nearest to a decimal literal of the source, or to an `int`. -/
def lit (q : ℚ) : F64 :=
  ofRat (decide (q < 0)) |q|

/-- Unary minus. -/
def neg : F64 → F64
  | nan => nan
  | inf s => inf (!s)
  | fin s m => fin (!s) m

/-- The function `abs` on `double`. -/
def abs : F64 → F64
  | nan => nan
  | inf _ => inf false
  | fin _ m => fin false m

/-- Multiplication of doubles. -/
def mul : F64 → F64 → F64
  | nan, _ => nan
  | _, nan => nan
  | inf s, inf t => inf (xor s t)
  | inf s, fin t n => if n = 0 then nan else inf (xor s t)
  | fin s m, inf t => if m = 0 then nan else inf (xor s t)
  | fin s m, fin t n => ofRat (xor s t) (m * n)

/-- Division of doubles. -/
def div : F64 → F64 → F64
  | nan, _ => nan
  | _, nan => nan
  | inf _, inf _ => nan
  | inf s, fin t _ => inf (xor s t)
  | fin s _, inf t => fin (xor s t) 0
  | fin s m, fin t n =>
    if n = 0 then (if m = 0 then nan else inf (xor s t))
    else ofRat (xor s t) (m / n)

/-- Addition of doubles. -/
def add : F64 → F64 → F64
  | nan, _ => nan
  | _, nan => nan
  | inf s, inf t => if s = t then inf s else nan
  | inf s, fin _ _ => inf s
  | fin _ _, inf t => inf t
  | fin s m, fin t n =>
    let x : ℚ := toRat (fin s m) + toRat (fin t n)
    if x = 0 then fin (s && t) 0 else ofRat (decide (x < 0)) |x|

/-- Subtraction of doubles. -/
def sub (a b : F64) : F64 :=
  add a (neg b)

/-- The comparison `a < b` of doubles; false when either is a NaN. -/
def lt : F64 → F64 → Bool
  | nan, _ => false
  | _, nan => false
  | inf s, inf t => s && !t
  | inf s, fin _ _ => s
  | fin _ _, inf t => !t
  | fin s m, fin t n => decide (toRat (fin s m) < toRat (fin t n))

/-- The comparison `a <= b` of doubles; false when either is a NaN. -/
def le : F64 → F64 → Bool
  | nan, _ => false
  | _, nan => false
  | inf s, inf t => s || !t
  | inf s, fin _ _ => s
  | fin _ _, inf t => !t
  | fin s m, fin t n => decide (toRat (fin s m) ≤ toRat (fin t n))

/-- The comparison `a == b` of doubles; false when either is a NaN, true for the two
zeros. -/
def eq : F64 → F64 → Bool
  | nan, _ => false
  | _, nan => false
  | inf s, inf t => s == t
  | inf _, fin _ _ => false
  | fin _ _, inf _ => false
  | fin s m, fin t n => decide (toRat (fin s m) = toRat (fin t n))

/-- The comparison `a > b`. -/
def gt (a b : F64) : Bool := lt b a

/-- The comparison `a >= b`. -/
def ge (a b : F64) : Bool := le b a

/-- The magnitude of a finite double (0 for the others). -/
def mag : F64 → ℚ
  | fin _ m => m
  | _ => 0

/-- The test `std::isfinite`. -/
def isFinite : F64 → Bool
  | fin _ _ => true
  | _ => false

/-- The integer part of a finite double: the fractional part is discarded
(0 for the others). -/
def trunc : F64 → ℤ
  | fin s m => if s then -⌊m⌋ else ⌊m⌋
  | _ => 0

/-- The double is finite and its integer part is a value of the 32-bit type `int`. -/
def inIntRange (x : F64) : Bool :=
  isFinite x && decide (-2147483648 ≤ trunc x ∧ trunc x ≤ 2147483647)

/-- The conversion `static_cast<int>(x)`: the integer part of `x` when that is an `int`,
and otherwise `indefinite`, what the platform yields where C++ leaves the conversion
undefined. -/
def toInt (indefinite : ℤ) (x : F64) : ℤ :=
  if inIntRange x then trunc x else indefinite

end F64

open F64

/-- What the binary64 model takes from outside the source: the library functions `exp`
and `sin`, the value returned by the `k`-th call of `rand()` (counted from 0), and the
`int` that the platform yields when `static_cast<int>` is applied to a NaN, an infinity
or a value whose integer part is not an `int` (the C++ standard leaves that conversion
undefined; x86-64 yields `-2147483648`). -/
structure Env where
  exp : F64 → F64
  sin : F64 → F64
  rand : Nat → Int
  intIndefinite : Int

/-- The constant `GRAVITY` (main.cpp, line 11) as a double. -/
def GRAVITY : F64 := lit 9.81

/-- The function `calculateDragForce` (main.cpp, lines 22-25) in binary64: the product
is evaluated from left to right, each multiplication rounded. -/
def calculateDragForce (dragCoefficient crossSectionalArea airDensity velocity : F64) : F64 :=
  mul (mul (mul (mul (mul (lit 0.5) dragCoefficient) crossSectionalArea) airDensity)
    velocity) velocity

/-- The function `calculateGravitationalForce` (main.cpp, lines 33-36) in binary64. -/
def calculateGravitationalForce (mass : F64) : F64 :=
  mul mass GRAVITY

/-- The function `calculateAirDensity` (main.cpp, lines 44-49) in binary64; `exp` is the
library exponential on doubles. -/
def calculateAirDensity (exp : F64 → F64) (altitude : F64) : F64 :=
  let seaLevelDensity : F64 := lit 1.225
  let scaleHeight : F64 := lit 8500.0
  mul seaLevelDensity (exp (div (neg altitude) scaleHeight))

/-- The function `adjustDragCoefficient` (main.cpp, lines 58-65) in binary64. -/
def adjustDragCoefficient (dragCoefficient windSpeed : F64) : F64 :=
  if gt (abs windSpeed) (lit 15.0) then mul dragCoefficient (lit 1.5)
  else dragCoefficient

/-- The double value whose integer part is the step index: the expression
`((initialHeight - position) / initialHeight) * steps` of main.cpp, line 77, with each
of its three operations rounded. -/
def stepValue (position initialHeight : F64) : F64 :=
  mul (div (sub initialHeight position) initialHeight) (lit 20)

/-- The step index computed at the start of `displayFallingObject`
(main.cpp, lines 76-79) in binary64. -/
def currentStepOf (indefinite : Int) (position initialHeight : F64) : Int :=
  let steps : Int := 20
  let currentStep : Int := F64.toInt indefinite (stepValue position initialHeight)
  let currentStep : Int := if currentStep ≥ steps then steps - 1 else currentStep
  if currentStep < 0 then 0 else currentStep

/-- The function `displayFallingObject` (main.cpp, lines 74-95) in binary64: the updated
trail and the rows that are printed above the ground line. -/
def displayFallingObject (indefinite : Int) (position initialHeight : F64)
    (trail : List Int) : List Int × List Row :=
  let currentStep := currentStepOf indefinite position initialHeight
  let trail := trail ++ [currentStep]
  let trail := if trail.length > 5 then trail.tail else trail
  (trail, (List.range 20).map fun i =>
    if (i : Int) = currentStep then Row.object
    else if (i : Int) ∈ trail then Row.faded
    else Row.blank)

/-- The arguments of `simulateMotion`, as doubles. -/
structure Params where
  mass : F64
  dragCoefficient : F64
  crossSectionalArea : F64
  airDensity : F64
  initialVelocity : F64
  initialHeight : F64
  windOption : Int
  customWindStrength : F64

/-- The local variables of `simulateMotion` that live across iterations of the loop,
as doubles, and the number of calls of `rand()` made so far. -/
structure MotionState where
  velocity : F64
  time : F64
  position : F64
  trail : List Int
  windDirection : F64
  windStrength : F64
  randCalls : Nat

/-- The constant `timeStep` of `simulateMotion` (main.cpp, line 118) as a double. -/
def timeStep : F64 := lit 0.05

/-- The values computed in the first part of the loop body (main.cpp, lines 124-148). -/
structure Forces where
  airDensityAtAltitude : F64
  windStrength : F64
  windDirection : F64
  randCalls : Nat
  wind : F64
  adjustedDragCoefficient : F64
  dragForce : F64
  netForce : F64
  acceleration : F64

/-- The first part of the loop body, lines 124-148, in binary64. -/
def forces (env : Env) (p : Params) (s : MotionState) : Forces :=
  let gravityForce := calculateGravitationalForce p.mass
  let airDensityAtAltitude := calculateAirDensity env.exp s.position
  let windStrength : F64 :=
    if p.windOption = 0 then mul (env.sin (mul s.time (lit 0.5))) (lit 0.5)
    else if p.windOption = 1 then lit 0.0
    else if p.windOption = 2 then p.customWindStrength
    else s.windStrength
  let redraw : Bool := p.windOption = 0 ∧ Int.tmod (F64.toInt env.intIndefinite s.time) 3 = 0
  let windDirection : F64 :=
    if redraw then (if Int.tmod (env.rand s.randCalls) 2 = 0 then lit 1.0 else neg (lit 1.0))
    else s.windDirection
  let randCalls := if redraw then s.randCalls + 1 else s.randCalls
  let wind := mul windStrength windDirection
  let adjustedDragCoefficient := adjustDragCoefficient p.dragCoefficient windStrength
  let dragForce :=
    calculateDragForce adjustedDragCoefficient p.crossSectionalArea airDensityAtAltitude
      (abs s.velocity)
  let netForce := add (sub gravityForce dragForce) wind
  let acceleration := div netForce p.mass
  { airDensityAtAltitude := airDensityAtAltitude
    windStrength := windStrength
    windDirection := windDirection
    randCalls := randCalls
    wind := wind
    adjustedDragCoefficient := adjustedDragCoefficient
    dragForce := dragForce
    netForce := netForce
    acceleration := acceleration }

/-- The Euler update, lines 150-151, in binary64: the pair (velocity, position) before
the ground clamp. -/
def eulerUpdate (acceleration velocity position : F64) : F64 × F64 :=
  let velocity := add velocity (mul acceleration timeStep)
  let position := sub position (mul velocity timeStep)
  (velocity, position)

/-- The ground clamp, lines 153-160, in binary64, on the pair (velocity, position). -/
def groundClamp (vp : F64 × F64) : F64 × F64 :=
  if lt vp.2 (lit 0) then
    (if gt (abs vp.1) (lit 1.0) then mul (neg vp.1) (lit 0.6) else lit 0, lit 0)
  else vp

/-- The pair (velocity, position) of a tick after the Euler update and before the
ground clamp, in binary64. -/
def preClamp (env : Env) (p : Params) (s : MotionState) : F64 × F64 :=
  eulerUpdate (forces env p s).acceleration s.velocity s.position

/-- One execution of the body of the `while` loop (main.cpp, lines 123-175) in
binary64. -/
def loopBody (env : Env) (p : Params) (s : MotionState) : MotionState :=
  let f := forces env p s
  let vp := groundClamp (eulerUpdate f.acceleration s.velocity s.position)
  { velocity := vp.1
    time := add s.time timeStep
    position := vp.2
    trail := (displayFallingObject env.intIndefinite vp.2 p.initialHeight s.trail).1
    windDirection := f.windDirection
    windStrength := f.windStrength
    randCalls := f.randCalls }

/-- The state of `simulateMotion` on entry to the loop (main.cpp, lines 112-120), in
binary64. -/
def initialState (p : Params) : MotionState :=
  { velocity := p.initialVelocity
    time := lit 0.0
    position := p.initialHeight
    trail := []
    windDirection := lit 1.0
    windStrength := lit 0.0
    randCalls := 0 }

/-- The loop condition `position > 0 || abs(velocity) > 0.5` (main.cpp, line 122), in
binary64. -/
def loopCond (s : MotionState) : Bool :=
  gt s.position (lit 0) || gt (abs s.velocity) (lit 0.5)

/-- The state after `n` executions of the loop body, in binary64. -/
def ticks (env : Env) (p : Params) (n : Nat) : MotionState :=
  (loopBody env p)^[n] (initialState p)

/-- The step index as the specification words it (section 4.2, step 10), in binary64:
the double value of `((initialHeight - position) / initialHeight) * 20` rounded to the
nearest integer and clamped to `[0, 19]`. -/
def specStepIndex (position initialHeight : F64) : Int :=
  max 0 (min 19 (round (toRat (stepValue position initialHeight))))

/-- An environment for running the binary64 model: `exp` is replaced by the constant 1
(its value at `0` and `-0`), `sin` by the constant 0 (its value at `0`), `rand()` always
returns 0, and an undefined conversion to `int` yields `-2147483648` as on x86-64. -/
def unitEnv : Env :=
  { exp := fun _ => lit 1
    sin := fun _ => lit 0
    rand := fun _ => 0
    intIndefinite := -2147483648 }

/-- The arguments with which `main` calls `simulateMotion` (drag coefficient 0.47, area
0.01, air density 1.225) for an object of the given mass, initial velocity and initial
height, with the given wind option and custom wind strength. -/
def mainParams (mass initialVelocity initialHeight : F64) (windOption : Int)
    (customWindStrength : F64) : Params :=
  { mass := mass
    dragCoefficient := lit 0.47
    crossSectionalArea := lit 0.01
    airDensity := lit 1.225
    initialVelocity := initialVelocity
    initialHeight := initialHeight
    windOption := windOption
    customWindStrength := customWindStrength }

/-- The arguments of the pure-gravity run of the specification (section 8), as
doubles: no wind, unit mass, no drag, released at rest from height 10. -/
def gravityRun : Params :=
  { mass := lit 1
    dragCoefficient := lit 0
    crossSectionalArea := lit 0.01
    airDensity := lit 1.225
    initialVelocity := lit 0
    initialHeight := lit 10
    windOption := 1
    customWindStrength := lit 0 }

end Binary64

section Theorems

variable {K : Type} [LinearOrderedField K]

/-! ## The environment model -/

/-- C5: `adjustDragCoefficient c w` is `c` whenever `|w| ≤ 15.0`, the boundary
included, and `1.5 * c` whenever `|w| > 15.0`. -/
theorem adjustDragCoefficient_threshold (c w : K) :
    (|w| ≤ 15.0 → adjustDragCoefficient c w = c) ∧
      (|w| > 15.0 → adjustDragCoefficient c w = 1.5 * c) := by
  constructor
  · intro h
    simp [adjustDragCoefficient, not_lt.mpr h]
  · intro h
    simp [adjustDragCoefficient, h, mul_comm]

/-- Witness for C5 at the boundary `w = 15` and above it at `w = 16`. -/
theorem adjustDragCoefficient_threshold_witness :
    adjustDragCoefficient (2 : ℚ) 15 = 2 ∧ adjustDragCoefficient (2 : ℚ) (-16) = 1.5 * 2 :=
  ⟨(adjustDragCoefficient_threshold (2 : ℚ) 15).1 (by norm_num),
    (adjustDragCoefficient_threshold (2 : ℚ) (-16)).2 (by norm_num)⟩

/-- The position that leaves the ground clamp. -/
theorem groundClamp_snd (vp : K × K) :
    (groundClamp vp).2 = if vp.2 < 0 then 0 else vp.2 := by
  unfold groundClamp
  by_cases h : vp.2 < 0
  · rw [if_pos h, if_pos h]
  · rw [if_neg h, if_neg h]

/-- The velocity that leaves the ground clamp. -/
theorem groundClamp_fst (vp : K × K) :
    (groundClamp vp).1 =
      if vp.2 < 0 then (if |vp.1| > 1.0 then -vp.1 * 0.6 else 0) else vp.1 := by
  unfold groundClamp
  by_cases h : vp.2 < 0
  · rw [if_pos h, if_pos h]
  · rw [if_neg h, if_neg h]

/-! ## Transfer from the rationals -/

/-- The ground clamp commutes with the embedding of the rationals. -/
theorem groundClamp_cast (q : ℚ × ℚ) :
    groundClamp ((q.1 : K), (q.2 : K)) =
      (((groundClamp q).1 : K), ((groundClamp q).2 : K)) := by
  have h1 : ((q.2 : K) < 0) ↔ (q.2 < 0) := by exact_mod_cast Iff.rfl
  have h2 : (|(q.1 : K)| > 1.0) ↔ (|q.1| > 1.0) := by
    norm_num
    exact_mod_cast Iff.rfl
  unfold groundClamp
  by_cases hp : q.2 < 0
  · by_cases hv : |q.1| > 1.0
    · simp only [if_pos hp, if_pos (h1.mpr hp), if_pos hv, if_pos (h2.mpr hv)]
      norm_num
    · simp only [if_pos hp, if_pos (h1.mpr hp), if_neg hv, if_neg (mt h2.mp hv)]
      norm_num
  · simp only [if_neg hp, if_neg (mt h1.mp hp)]

/-- The Euler update commutes with the embedding of the rationals. -/
theorem eulerUpdate_cast (a v x : ℚ) :
    eulerUpdate (a : K) (v : K) (x : K) =
      (((eulerUpdate a v x).1 : K), ((eulerUpdate a v x).2 : K)) := by
  simp only [eulerUpdate, timeStep]
  norm_num

/-- The loop condition only looks at the velocity and the position, and gives the same
answer over `K` as over the rationals. -/
theorem loopCond_cast (s : MotionState K) (q : MotionState ℚ)
    (hv : s.velocity = (q.velocity : K)) (hp : s.position = (q.position : K)) :
    loopCond s = loopCond q := by
  have h1 : ((q.position : K) > 0) ↔ (q.position > 0) := by exact_mod_cast Iff.rfl
  have h2 : (|(q.velocity : K)| > 0.5) ↔ (|q.velocity| > 0.5) := by
    have e : (0.5 : K) = ((0.5 : ℚ) : K) := by norm_num
    rw [e, ← Rat.cast_abs, gt_iff_lt, gt_iff_lt, Rat.cast_lt]
  unfold loopCond
  rw [hv, hp]
  exact decide_eq_decide.mpr (or_congr h1 h2)

variable [FloorRing K]

/-! ## One tick of the motion simulator -/

/-- C1: if the Euler update of a tick yields a negative position, then after the tick
the position is 0, the velocity is -0.6 times the velocity before the clamp when that
has magnitude above 1.0 and is 0 otherwise, and the velocity has changed sign exactly
when the magnitude before the clamp is above 1.0. -/
theorem groundClamp_tick (env : Env K) (p : Params K) (s : MotionState K)
    (hneg : (preClamp env p s).2 < 0) :
    (loopBody env p s).position = 0 ∧
      (|(preClamp env p s).1| > 1.0 →
        (loopBody env p s).velocity = -0.6 * (preClamp env p s).1) ∧
      (¬ |(preClamp env p s).1| > 1.0 → (loopBody env p s).velocity = 0) ∧
      (signFlipped (preClamp env p s).1 (loopBody env p s).velocity ↔
        |(preClamp env p s).1| > 1.0) := by
  have hv : (loopBody env p s).velocity =
      if |(preClamp env p s).1| > 1.0 then -(preClamp env p s).1 * 0.6 else 0 := by
    simp only [loopBody, preClamp] at hneg ⊢
    simp only [groundClamp, if_pos hneg]
  have hp : (loopBody env p s).position = 0 := by
    simp only [loopBody, preClamp] at hneg ⊢
    simp only [groundClamp, if_pos hneg]
  refine ⟨hp, ?_, ?_, ?_⟩
  · intro h
    rw [hv, if_pos h]
    ring
  · intro h
    rw [hv, if_neg h]
  · by_cases h : |(preClamp env p s).1| > 1.0
    · rw [hv, if_pos h]
      simp only [h, iff_true]
      have h1 : (1 : K) < |(preClamp env p s).1| := by
        have : (1.0 : K) = 1 := by norm_num
        rw [← this]
        exact h
      rcases lt_or_le 0 (preClamp env p s).1 with hpos | hle
      · left
        refine ⟨hpos, ?_⟩
        have : (0 : K) < 0.6 := by norm_num
        nlinarith
      · right
        have hlt : (preClamp env p s).1 < 0 := by
          rcases eq_or_lt_of_le hle with h0 | h0
          · rw [h0] at h1
            simp at h1
            linarith
          · exact h0
        refine ⟨hlt, ?_⟩
        have : (0 : K) < 0.6 := by norm_num
        nlinarith
    · rw [hv, if_neg h]
      simp only [h, iff_false]
      intro hf
      rcases hf with ⟨_, h2⟩ | ⟨_, h2⟩
      · exact lt_irrefl _ h2
      · exact lt_irrefl _ h2

/-- Witness for C1: the tick of the pure-gravity run that first reaches the ground,
entered at height 0.04285 with velocity 13.734. -/
theorem groundClamp_tick_witness :
    (preClamp ratEnv (gravityRun 0 0 0) ⟨13.734, 1.4, 0.04285, [], 1, 0, 0⟩).2 < 0 ∧
      (loopBody ratEnv (gravityRun 0 0 0) ⟨13.734, 1.4, 0.04285, [], 1, 0, 0⟩).position = 0 ∧
      (loopBody ratEnv (gravityRun 0 0 0) ⟨13.734, 1.4, 0.04285, [], 1, 0, 0⟩).velocity =
        -0.6 * (preClamp ratEnv (gravityRun 0 0 0) ⟨13.734, 1.4, 0.04285, [], 1, 0, 0⟩).1 :=
  ⟨by decide!,
    (groundClamp_tick ratEnv (gravityRun 0 0 0) ⟨13.734, 1.4, 0.04285, [], 1, 0, 0⟩
      (by decide!)).1,
    (groundClamp_tick ratEnv (gravityRun 0 0 0) ⟨13.734, 1.4, 0.04285, [], 1, 0, 0⟩
      (by decide!)).2.1 (by decide!)⟩

/-! ## The step index and the trail -/

/-- The trail that `displayFallingObject` leaves: the new index is appended and, when
that makes six entries, the first one is erased. -/
theorem displayFallingObject_trail (position initialHeight : K) (trail : List Int) :
    (displayFallingObject position initialHeight trail).1 =
      if (trail ++ [currentStepOf position initialHeight]).length > 5 then
        (trail ++ [currentStepOf position initialHeight]).tail
      else trail ++ [currentStepOf position initialHeight] := by
  simp only [displayFallingObject]

/-- Appending to the last five entries of a history and erasing the first entry on
overflow gives the last five entries of the extended history. -/
theorem push_lastFive (L : List Int) (c : Int) :
    (if (L.drop (L.length - 5) ++ [c]).length > 5 then (L.drop (L.length - 5) ++ [c]).tail
      else L.drop (L.length - 5) ++ [c]) = (L ++ [c]).drop (L.length + 1 - 5) := by
  by_cases h : L.length ≤ 4
  · have h1 : L.length - 5 = 0 := by omega
    have h2 : L.length + 1 - 5 = 0 := by omega
    rw [h1, h2]
    simp only [List.drop_zero, List.length_append, List.length_singleton]
    rw [if_neg (by omega)]
  · have hlen : (L.drop (L.length - 5) ++ [c]).length > 5 := by
      simp only [List.length_append, List.length_drop, List.length_singleton]
      omega
    rw [if_pos hlen]
    have h3 : L.length + 1 - 5 = (L.length - 5) + 1 := by omega
    rw [h3, List.drop_append_of_le_length (by omega), List.tail_append_of_ne_nil]
    · rw [List.tail_drop]
    · intro hnil
      have := congrArg List.length hnil
      simp only [List.length_drop, List.length_nil] at this
      omega

/-- The step indices of `n + 1` ticks are those of `n` ticks followed by the index of
tick `n + 1`. -/
theorem stepIndices_succ (env : Env K) (p : Params K) (n : Nat) :
    stepIndices env p (n + 1) =
      stepIndices env p n ++ [currentStepOf (ticks env p (n + 1)).position p.initialHeight] := by
  simp only [stepIndices, List.range_succ, List.map_append, List.map_cons, List.map_nil]

/-- The number of step indices of `n` ticks is `n`. -/
theorem stepIndices_length (env : Env K) (p : Params K) (n : Nat) :
    (stepIndices env p n).length = n := by
  simp only [stepIndices, List.length_map, List.length_range]

/-- The trail after `n` ticks is the list of the last five step indices. -/
theorem ticks_trail (env : Env K) (p : Params K) (n : Nat) :
    (ticks env p n).trail = (stepIndices env p n).drop (n - 5) := by
  induction n with
  | zero => rfl
  | succ n ih =>
    have hstep : (ticks env p (n + 1)).trail =
        (displayFallingObject (ticks env p (n + 1)).position p.initialHeight
          (ticks env p n).trail).1 := by
      simp only [ticks, Function.iterate_succ_apply', loopBody]
    rw [hstep, displayFallingObject_trail, ih, stepIndices_succ]
    have h := push_lastFive (stepIndices env p n)
      (currentStepOf (ticks env p (n + 1)).position p.initialHeight)
    rw [stepIndices_length] at h
    exact h

/-- C4: starting from the empty trail, after `n` ticks the trail has length
`min n 5 ≤ 5` and consists of the step indices of the last `min n 5` ticks in the
order in which they were computed; appending to a trail of five entries evicts the
oldest one. -/
theorem trail_lastFive (env : Env K) (p : Params K) (n : Nat) :
    (ticks env p 0).trail = [] ∧
      (ticks env p n).trail.length = min n 5 ∧
      (ticks env p n).trail.length ≤ 5 ∧
      (ticks env p n).trail = (stepIndices env p n).drop (n - min n 5) ∧
      ∀ (a b c d e : Int) (position initialHeight : K),
        (displayFallingObject position initialHeight [a, b, c, d, e]).1 =
          [b, c, d, e, currentStepOf position initialHeight] := by
  have hmin : n - min n 5 = n - 5 := by omega
  refine ⟨rfl, ?_, ?_, ?_, ?_⟩
  · rw [ticks_trail, List.length_drop, stepIndices_length]
    omega
  · rw [ticks_trail, List.length_drop, stepIndices_length]
    omega
  · rw [hmin]
    exact ticks_trail env p n
  · intro a b c d e position initialHeight
    simp [displayFallingObject]

/-! ## The drag scenario -/

/-- The state after `n + 1` ticks is the loop body applied to the state after `n`. -/
theorem ticks_succ (env : Env K) (p : Params K) (n : Nat) :
    ticks env p (n + 1) = loopBody env p (ticks env p n) := by
  simp only [ticks, Function.iterate_succ_apply']

/-- The velocity and position after a tick are the ground clamp of the Euler update. -/
theorem loopBody_clamp (env : Env K) (p : Params K) (s : MotionState K) :
    (loopBody env p s).velocity = (groundClamp (preClamp env p s)).1 ∧
      (loopBody env p s).position = (groundClamp (preClamp env p s)).2 :=
  ⟨rfl, rfl⟩

/-- The Euler update of a tick of the drag scenario, written out. -/
theorem dragRun_preClamp (env : Env K) (rho w : K) (s : MotionState K) :
    (preClamp env (dragRun rho w) s).1 =
        s.velocity + (9.81 - 0.5 * 0.47 * 0.01 * (1.225 * env.exp (-s.position / 8500))
          * (s.velocity * s.velocity)) * 0.05 ∧
      (preClamp env (dragRun rho w) s).2 =
        s.position - (preClamp env (dragRun rho w) s).1 * 0.05 := by
  have h15 : ¬ |(0.0 : K)| > 15.0 := by norm_num
  constructor
  · simp only [preClamp, eulerUpdate, forces, dragRun, adjustDragCoefficient, if_neg h15,
      calculateDragForce, calculateAirDensity, calculateGravitationalForce, GRAVITY, timeStep]
    norm_num
    ring_nf
    rw [sq_abs]
  · simp only [preClamp, eulerUpdate, timeStep]

/-- In the drag scenario, a tick entered with a velocity between 0 and 100 at a
non-negative height gains at least 0.4905 minus the loss to drag, which is small:
the velocity before the clamp is at least 0.4905 and at most 0.4905 above the old one. -/
theorem dragRun_tick_bounds (env : Env K)
    (hexp : ∀ x : K, x ≤ 0 → 0 ≤ env.exp x ∧ env.exp x ≤ 1) (rho w : K)
    (s : MotionState K) (hv0 : 0 ≤ s.velocity) (hv1 : s.velocity ≤ 100)
    (hp : 0 ≤ s.position) :
    0.4905 ≤ (preClamp env (dragRun rho w) s).1 ∧
      (preClamp env (dragRun rho w) s).1 ≤ s.velocity + 0.4905 := by
  have harg : -s.position / 8500 ≤ 0 := by
    apply div_nonpos_of_nonpos_of_nonneg
    · linarith
    · norm_num
  obtain ⟨he0, he1⟩ := hexp _ harg
  rw [(dragRun_preClamp env rho w s).1]
  generalize env.exp (-s.position / 8500) = e at he0 he1
  have h1 : 0 ≤ e * s.velocity := mul_nonneg he0 hv0
  have h2 : e * s.velocity ≤ 100 := by nlinarith
  have h3 : 0 ≤ e * s.velocity * s.velocity := mul_nonneg h1 hv0
  have h4 : e * s.velocity * s.velocity ≤ 100 * s.velocity :=
    mul_le_mul_of_nonneg_right h2 hv0
  constructor
  · norm_num
    nlinarith
  · norm_num
    nlinarith

/-- In the drag scenario, as long as the ground clamp has not fired, the object falls:
after `n` ticks the velocity is between 0 and `0.4905 * n` and the position between
0 and `5 - 0.024525 * n`. -/
theorem dragRun_invariant (env : Env K)
    (hexp : ∀ x : K, x ≤ 0 → 0 ≤ env.exp x ∧ env.exp x ≤ 1) (rho w : K) (n : Nat)
    (hno : ∀ k, k < n →
      0 ≤ (preClamp env (dragRun rho w) (ticks env (dragRun rho w) k)).2) :
    0 ≤ (ticks env (dragRun rho w) n).velocity ∧
      (ticks env (dragRun rho w) n).velocity ≤ 0.4905 * (n : K) ∧
      0 ≤ (ticks env (dragRun rho w) n).position ∧
      (ticks env (dragRun rho w) n).position ≤ 5 - 0.024525 * (n : K) := by
  induction n with
  | zero =>
    simp [ticks, initialState, dragRun]
  | succ n ih =>
    obtain ⟨hv0, hv1, hp0, hp1⟩ := ih (fun k hk => hno k (Nat.lt_succ_of_lt hk))
    have hpre := hno n (Nat.lt_succ_self n)
    have hv100 : (ticks env (dragRun rho w) n).velocity ≤ 100 := by
      norm_num at hv1 hp1
      linarith
    obtain ⟨hb0, hb1⟩ :=
      dragRun_tick_bounds env hexp rho w (ticks env (dragRun rho w) n) hv0 hv100 hp0
    have hpos := (dragRun_preClamp env rho w (ticks env (dragRun rho w) n)).2
    have hcl : groundClamp (preClamp env (dragRun rho w) (ticks env (dragRun rho w) n)) =
        preClamp env (dragRun rho w) (ticks env (dragRun rho w) n) := by
      unfold groundClamp
      rw [if_neg (not_lt.mpr hpre)]
    rw [ticks_succ, (loopBody_clamp _ _ _).1, (loopBody_clamp _ _ _).2, hcl]
    push_cast
    norm_num at hb0 hb1 hv1 hp1 ⊢
    refine ⟨by linarith, by linarith, hpre, ?_⟩
    rw [hpos]
    norm_num
    linarith

/-- In the drag scenario, a tick that is not preceded by a firing of the ground clamp
does not raise the position. -/
theorem dragRun_step_le (env : Env K)
    (hexp : ∀ x : K, x ≤ 0 → 0 ≤ env.exp x ∧ env.exp x ≤ 1) (rho w : K) (n : Nat)
    (hno : ∀ k, k < n →
      0 ≤ (preClamp env (dragRun rho w) (ticks env (dragRun rho w) k)).2) :
    (ticks env (dragRun rho w) (n + 1)).position ≤ (ticks env (dragRun rho w) n).position := by
  obtain ⟨hv0, hv1, hp0, hp1⟩ := dragRun_invariant env hexp rho w n hno
  have hv100 : (ticks env (dragRun rho w) n).velocity ≤ 100 := by
    norm_num at hv1 hp1
    linarith
  obtain ⟨hb0, _⟩ :=
    dragRun_tick_bounds env hexp rho w (ticks env (dragRun rho w) n) hv0 hv100 hp0
  have hpos := (dragRun_preClamp env rho w (ticks env (dragRun rho w) n)).2
  rw [ticks_succ, (loopBody_clamp _ _ _).2]
  rw [groundClamp_snd]
  by_cases h : (preClamp env (dragRun rho w) (ticks env (dragRun rho w) n)).2 < 0
  · rw [if_pos h]
    exact hp0
  · rw [if_neg h, hpos]
    norm_num at hb0 ⊢
    linarith

/-- In the drag scenario the ground clamp fires on one of the first 204 ticks. -/
theorem dragRun_clamp_fires (env : Env K)
    (hexp : ∀ x : K, x ≤ 0 → 0 ≤ env.exp x ∧ env.exp x ≤ 1) (rho w : K) :
    ∃ k, k < 204 ∧ (preClamp env (dragRun rho w) (ticks env (dragRun rho w) k)).2 < 0 := by
  by_contra hcon
  push_neg at hcon
  obtain ⟨_, _, hp0, hp1⟩ := dragRun_invariant env hexp rho w 204 hcon
  norm_num at hp1
  linarith

/-- C8: in the drag scenario (real arithmetic, `exp` the real exponential) the ground
clamp first fires on some tick `N + 1` with `N < 204`, and on every tick up to and
including that one the position does not increase. -/
theorem dragRun_position_nonincreasing (sin : ℝ → ℝ) (rand : Nat → Int) (rho w : ℝ) :
    ∃ N, N < 204 ∧
      (preClamp ⟨Real.exp, sin, rand⟩ (dragRun rho w)
        (ticks ⟨Real.exp, sin, rand⟩ (dragRun rho w) N)).2 < 0 ∧
      (∀ k, k < N →
        0 ≤ (preClamp ⟨Real.exp, sin, rand⟩ (dragRun rho w)
          (ticks ⟨Real.exp, sin, rand⟩ (dragRun rho w) k)).2) ∧
      ∀ n, n ≤ N →
        (ticks ⟨Real.exp, sin, rand⟩ (dragRun rho w) (n + 1)).position ≤
          (ticks ⟨Real.exp, sin, rand⟩ (dragRun rho w) n).position := by
  classical
  have hexp : ∀ x : ℝ, x ≤ 0 →
      0 ≤ (⟨Real.exp, sin, rand⟩ : Env ℝ).exp x ∧
        (⟨Real.exp, sin, rand⟩ : Env ℝ).exp x ≤ 1 :=
    fun x hx => ⟨Real.exp_nonneg x, Real.exp_le_one_iff.mpr hx⟩
  have hex := dragRun_clamp_fires ⟨Real.exp, sin, rand⟩ hexp rho w
  have hmin : ∀ k, k < Nat.find hex →
      0 ≤ (preClamp ⟨Real.exp, sin, rand⟩ (dragRun rho w)
        (ticks ⟨Real.exp, sin, rand⟩ (dragRun rho w) k)).2 := by
    intro k hk
    have hnot := Nat.find_min hex hk
    have hlt : k < 204 := lt_trans hk (Nat.find_spec hex).1
    by_contra hneg
    exact hnot ⟨hlt, not_le.mp hneg⟩
  refine ⟨Nat.find hex, (Nat.find_spec hex).1, (Nat.find_spec hex).2, hmin, ?_⟩
  intro n hn
  exact dragRun_step_le ⟨Real.exp, sin, rand⟩ hexp rho w n
    (fun k hk => hmin k (lt_of_lt_of_le hk hn))

/-! ## The pure-gravity run -/

/-- If the loop condition holds in the first `n` states reached from `s` and fails in
the next one, the loop leaves with that state after `n` iterations, whatever bound
`fuel ≥ n` is put on the number of iterations. -/
theorem whileLoop_eq_iterate (env : Env K) (p : Params K) (n : Nat) :
    ∀ (s : MotionState K) (fuel : Nat), n ≤ fuel →
      (∀ k, k < n → loopCond ((loopBody env p)^[k] s) = true) →
      loopCond ((loopBody env p)^[n] s) = false →
      whileLoop env p fuel s = some ((loopBody env p)^[n] s) := by
  induction n with
  | zero =>
    intro s fuel _ _ hstop
    simp only [Function.iterate_zero, id_eq] at hstop ⊢
    cases fuel with
    | zero => simp [whileLoop, hstop]
    | succ fuel => simp [whileLoop, hstop]
  | succ n ih =>
    intro s fuel hfuel hrun hstop
    cases fuel with
    | zero => omega
    | succ fuel =>
      have h0 : loopCond s = true := hrun 0 (Nat.succ_pos n)
      simp only [whileLoop, h0, if_true, Function.iterate_succ_apply]
      apply ih (loopBody env p s) fuel (by omega)
      · intro k hk
        have := hrun (k + 1) (by omega)
        simpa only [Function.iterate_succ_apply] using this
      · simpa only [Function.iterate_succ_apply] using hstop

/-- In the pure-gravity run there is no drag and no wind: the acceleration of every
tick is `GRAVITY`, whatever `exp` returns. -/
theorem gravityRun_acceleration (env : Env K) (A rho w : K) (s : MotionState K) :
    (forces env (gravityRun A rho w) s).acceleration = 9.81 := by
  have h15 : ¬ |(0.0 : K)| > 15.0 := by norm_num
  simp only [forces, gravityRun, adjustDragCoefficient, if_neg h15,
    calculateDragForce, calculateGravitationalForce, GRAVITY]
  norm_num

/-- A tick of the pure-gravity run over `K` does to the velocity and the position what
it does over the rationals. -/
theorem gravityRun_loopBody_cast (env : Env K) (A rho w : K) (s : MotionState K)
    (q : MotionState ℚ) (hv : s.velocity = (q.velocity : K))
    (hp : s.position = (q.position : K)) :
    (loopBody env (gravityRun A rho w) s).velocity =
        ((loopBody ratEnv (gravityRun 0 0 0) q).velocity : K) ∧
      (loopBody env (gravityRun A rho w) s).position =
        ((loopBody ratEnv (gravityRun 0 0 0) q).position : K) := by
  have hK : preClamp env (gravityRun A rho w) s =
      eulerUpdate (((9.81 : ℚ) : K)) (q.velocity : K) (q.position : K) := by
    unfold preClamp
    rw [gravityRun_acceleration, hv, hp]
    norm_num
  have hQ : preClamp ratEnv (gravityRun 0 0 0) q = eulerUpdate 9.81 q.velocity q.position := by
    unfold preClamp
    rw [gravityRun_acceleration]
  rw [(loopBody_clamp _ _ _).1, (loopBody_clamp _ _ _).2, (loopBody_clamp _ _ _).1,
    (loopBody_clamp _ _ _).2, hK, hQ, eulerUpdate_cast, groundClamp_cast]
  exact ⟨rfl, rfl⟩

/-- The velocity and position of the pure-gravity run over `K` are, tick by tick, those
of the run over the rationals. -/
theorem gravityRun_ticks_cast (env : Env K) (A rho w : K) (n : Nat) :
    (ticks env (gravityRun A rho w) n).velocity =
        ((ticks ratEnv (gravityRun 0 0 0) n).velocity : K) ∧
      (ticks env (gravityRun A rho w) n).position =
        ((ticks ratEnv (gravityRun 0 0 0) n).position : K) := by
  induction n with
  | zero => simp [ticks, initialState, gravityRun]
  | succ n ih =>
    rw [ticks_succ, ticks_succ]
    exact gravityRun_loopBody_cast env A rho w _ _ ih.1 ih.2

/-- The pure-gravity run over the rationals: the loop condition holds after each of
the first 98 ticks and on entry, and after tick 99 the object lies still on the ground. -/
theorem gravityRun_rat_trace :
    (∀ k, k < 99 → loopCond (ticks ratEnv (gravityRun 0 0 0) k) = true) ∧
      loopCond (ticks ratEnv (gravityRun 0 0 0) 99) = false ∧
      (ticks ratEnv (gravityRun 0 0 0) 99).position = 0 ∧
      (ticks ratEnv (gravityRun 0 0 0) 99).velocity = 0 := by
  decide!

/-- C3: the pure-gravity run (no wind, mass 1, no drag, released at rest from height 10)
leaves the loop after 99 ticks, for every bound `fuel ≥ 99` on the number of
iterations, and the state it leaves with is `Settled`. -/
theorem gravityRun_settles (env : Env K) (A rho w : K) :
    ∃ s, (∀ fuel, 99 ≤ fuel → simulateMotion env (gravityRun A rho w) fuel = some s) ∧
      s = ticks env (gravityRun A rho w) 99 ∧
      (∀ k, k < 99 → loopCond (ticks env (gravityRun A rho w) k) = true) ∧
      Settled s := by
  obtain ⟨hrun, hstop, hpos, hvel⟩ := gravityRun_rat_trace
  have hrunK : ∀ k, k < 99 → loopCond (ticks env (gravityRun A rho w) k) = true := by
    intro k hk
    rw [loopCond_cast _ _ (gravityRun_ticks_cast env A rho w k).1
      (gravityRun_ticks_cast env A rho w k).2]
    exact hrun k hk
  have hstopK : loopCond (ticks env (gravityRun A rho w) 99) = false := by
    rw [loopCond_cast _ _ (gravityRun_ticks_cast env A rho w 99).1
      (gravityRun_ticks_cast env A rho w 99).2]
    exact hstop
  refine ⟨ticks env (gravityRun A rho w) 99, ?_, rfl, hrunK, ?_, ?_⟩
  · intro fuel hfuel
    exact whileLoop_eq_iterate env (gravityRun A rho w) 99 _ fuel hfuel hrunK hstopK
  · rw [(gravityRun_ticks_cast env A rho w 99).2, hpos]
    norm_num
  · rw [(gravityRun_ticks_cast env A rho w 99).1, hvel]
    norm_num

end Theorems

namespace Binary64

open F64

set_option maxRecDepth 100000

/-! ## Binary64: rounding -/

/-- The function `pow2` is the power of two. -/
theorem pow2_eq_zpow (k : ℤ) : pow2 k = (2 : ℚ) ^ k := by
  unfold pow2
  by_cases h : 0 ≤ k
  · rw [if_pos h]
    obtain ⟨n, rfl⟩ := Int.eq_ofNat_of_zero_le h
    simp
  · rw [if_neg h]
    obtain ⟨n, hn⟩ := Int.exists_eq_neg_ofNat (le_of_lt (not_le.mp h))
    subst hn
    simp

/-- Powers of two are positive. -/
theorem pow2_pos (k : ℤ) : 0 < pow2 k := by
  rw [pow2_eq_zpow]
  positivity

/-- Consecutive powers of two. -/
theorem pow2_succ (k : ℤ) : pow2 (k + 1) = 2 * pow2 k := by
  rw [pow2_eq_zpow, pow2_eq_zpow, zpow_add_one₀ (by norm_num)]
  ring

/-- Powers of two grow with the exponent. -/
theorem pow2_le_pow2 {j k : ℤ} (h : j ≤ k) : pow2 j ≤ pow2 k := by
  rw [pow2_eq_zpow, pow2_eq_zpow]
  exact zpow_le_zpow_right₀ (by norm_num) h

/-- The exponents add when powers of two are multiplied. -/
theorem pow2_add (j k : ℤ) : pow2 (j + k) = pow2 j * pow2 k := by
  rw [pow2_eq_zpow, pow2_eq_zpow, pow2_eq_zpow, zpow_add₀ (by norm_num)]

/-- The halving count brackets its argument between two powers of two. -/
theorem log2Fuel_spec (fuel : Nat) :
    ∀ n, n ≤ fuel → n ≠ 0 →
      2 ^ log2Fuel fuel n ≤ n ∧ n < 2 ^ (log2Fuel fuel n + 1) := by
  induction fuel with
  | zero =>
    intro n hn h0
    omega
  | succ fuel ih =>
    intro n hn h0
    unfold log2Fuel
    by_cases h2 : n < 2
    · rw [if_pos h2]
      constructor
      · simp
        omega
      · simpa using h2
    · rw [if_neg h2]
      have hhalf := ih (n / 2) (by omega) (by omega)
      obtain ⟨h1, h3⟩ := hhalf
      constructor
      · rw [pow_succ]
        omega
      · rw [pow_succ]
        omega

/-- The binary logarithm brackets its argument between two powers of two. -/
theorem natLog2_spec (n : Nat) (h0 : n ≠ 0) :
    2 ^ natLog2 n ≤ n ∧ n < 2 ^ (natLog2 n + 1) :=
  log2Fuel_spec n n (le_refl n) h0

/-- The binary exponent brackets a positive rational between two powers of two. -/
theorem ilog2_spec (q : ℚ) (hq : 0 < q) :
    pow2 (ilog2 q) ≤ q ∧ q < pow2 (ilog2 q + 1) := by
  have hnum : 0 < q.num := Rat.num_pos.mpr hq
  have hden : 0 < q.den := q.den_pos
  obtain ⟨ha1, ha2⟩ := natLog2_spec q.num.natAbs (by omega)
  obtain ⟨hb1, hb2⟩ := natLog2_spec q.den (by omega)
  have hqeq : q = (q.num.natAbs : ℚ) / (q.den : ℚ) := by
    have h1 : ((q.num.natAbs : ℤ) : ℚ) = (q.num : ℚ) := by
      rw [Int.natAbs_of_nonneg hnum.le]
    have h2 : ((q.num.natAbs : ℤ) : ℚ) = ((q.num.natAbs : ℕ) : ℚ) :=
      Int.cast_natCast q.num.natAbs
    rw [← h2, h1]
    exact (Rat.num_div_den q).symm
  have hdq : (0 : ℚ) < (q.den : ℚ) := by exact_mod_cast hden
  have ha1q : (2 : ℚ) ^ natLog2 q.num.natAbs ≤ (q.num.natAbs : ℚ) := by exact_mod_cast ha1
  have ha2q : (q.num.natAbs : ℚ) < (2 : ℚ) ^ (natLog2 q.num.natAbs + 1) := by
    exact_mod_cast ha2
  have hb1q : (2 : ℚ) ^ natLog2 q.den ≤ (q.den : ℚ) := by exact_mod_cast hb1
  have hb2q : (q.den : ℚ) < (2 : ℚ) ^ (natLog2 q.den + 1) := by exact_mod_cast hb2
  set la := natLog2 q.num.natAbs with hla
  set lb := natLog2 q.den with hlb
  have hA : (0 : ℚ) < (2 : ℚ) ^ la := by positivity
  have hB : (0 : ℚ) < (2 : ℚ) ^ lb := by positivity
  -- the two candidates
  have hk1 : pow2 ((la : ℤ) - (lb : ℤ) + 1) = (2 : ℚ) ^ (la + 1) / (2 : ℚ) ^ lb := by
    rw [pow2_eq_zpow, zpow_add_one₀ (by norm_num), zpow_sub₀ (by norm_num)]
    simp only [zpow_natCast]
    rw [pow_succ]
    ring
  have hk0 : pow2 ((la : ℤ) - (lb : ℤ) - 1) = (2 : ℚ) ^ la / (2 : ℚ) ^ (lb + 1) := by
    rw [pow2_eq_zpow, zpow_sub_one₀ (by norm_num), zpow_sub₀ (by norm_num)]
    simp only [zpow_natCast]
    rw [pow_succ]
    field_simp
  have hupper : q < pow2 ((la : ℤ) - (lb : ℤ) + 1) := by
    rw [hk1, hqeq, div_lt_div_iff₀ hdq hB]
    calc (q.num.natAbs : ℚ) * (2 : ℚ) ^ lb < (2 : ℚ) ^ (la + 1) * (2 : ℚ) ^ lb := by
          exact mul_lt_mul_of_pos_right ha2q hB
      _ ≤ (2 : ℚ) ^ (la + 1) * (q.den : ℚ) := by
          exact mul_le_mul_of_nonneg_left hb1q (by positivity)
  have hlower : pow2 ((la : ℤ) - (lb : ℤ) - 1) ≤ q := by
    rw [hk0]
    have hB1 : (0 : ℚ) < (2 : ℚ) ^ (lb + 1) := by positivity
    rw [hqeq, div_le_div_iff₀ hB1 hdq]
    calc (2 : ℚ) ^ la * (q.den : ℚ) ≤ (q.num.natAbs : ℚ) * (q.den : ℚ) := by
          exact mul_le_mul_of_nonneg_right ha1q hdq.le
      _ ≤ (q.num.natAbs : ℚ) * (2 : ℚ) ^ (lb + 1) := by
          exact mul_le_mul_of_nonneg_left hb2q.le (by positivity)
  unfold ilog2
  simp only [← hla, ← hlb]
  by_cases hc : pow2 ((la : ℤ) - (lb : ℤ)) ≤ q
  · rw [if_pos hc]
    exact ⟨hc, hupper⟩
  · rw [if_neg hc]
    refine ⟨hlower, ?_⟩
    have : (la : ℤ) - (lb : ℤ) - 1 + 1 = (la : ℤ) - (lb : ℤ) := by ring
    rw [this]
    exact not_le.mp hc

/-- The binary exponent is determined by the bracket. -/
theorem ilog2_unique (q : ℚ) (e : ℤ) (h1 : pow2 e ≤ q) (h2 : q < pow2 (e + 1)) :
    ilog2 q = e := by
  have hq : 0 < q := lt_of_lt_of_le (pow2_pos e) h1
  obtain ⟨h3, h4⟩ := ilog2_spec q hq
  rw [pow2_eq_zpow] at h1 h2 h3 h4
  have hlt1 : (2 : ℚ) ^ e < (2 : ℚ) ^ (ilog2 q + 1) := lt_of_le_of_lt h1 h4
  have hlt2 : (2 : ℚ) ^ (ilog2 q) < (2 : ℚ) ^ (e + 1) := lt_of_le_of_lt h3 h2
  have a1 := (zpow_lt_zpow_iff_right₀ (by norm_num : (1 : ℚ) < 2)).mp hlt1
  have a2 := (zpow_lt_zpow_iff_right₀ (by norm_num : (1 : ℚ) < 2)).mp hlt2
  omega

/-- The binary exponent grows with its argument. -/
theorem ilog2_mono (p q : ℚ) (hp : 0 < p) (hpq : p ≤ q) : ilog2 p ≤ ilog2 q := by
  obtain ⟨h1, _⟩ := ilog2_spec p hp
  obtain ⟨_, h4⟩ := ilog2_spec q (lt_of_lt_of_le hp hpq)
  rw [pow2_eq_zpow] at h1 h4
  have hlt : (2 : ℚ) ^ (ilog2 p) < (2 : ℚ) ^ (ilog2 q + 1) :=
    lt_of_le_of_lt h1 (lt_of_le_of_lt hpq h4)
  have := (zpow_lt_zpow_iff_right₀ (by norm_num : (1 : ℚ) < 2)).mp hlt
  omega

/-- Doubling raises the binary exponent by one. -/
theorem ilog2_two_mul (q : ℚ) (hq : 0 < q) : ilog2 (2 * q) = ilog2 q + 1 := by
  obtain ⟨h1, h2⟩ := ilog2_spec q hq
  apply ilog2_unique
  · rw [pow2_succ]
    linarith
  · rw [pow2_succ]
    linarith

/-- Rounding to nearest leaves an integer unchanged. -/
theorem rne_intCast (k : ℤ) : rne (k : ℚ) = k := by
  unfold rne
  simp

/-- Rounding to nearest gives the floor or the integer after it. -/
theorem rne_bounds (x : ℚ) : ⌊x⌋ ≤ rne x ∧ rne x ≤ ⌊x⌋ + 1 := by
  unfold rne
  simp only
  split_ifs <;> omega

/-- Rounding to nearest, ties to even, is monotone. -/
theorem rne_mono {x y : ℚ} (h : x ≤ y) : rne x ≤ rne y := by
  have hfl : ⌊x⌋ ≤ ⌊y⌋ := Int.floor_le_floor h
  rcases lt_or_eq_of_le hfl with hlt | heq
  · have h1 := (rne_bounds x).2
    have h2 := (rne_bounds y).1
    omega
  · have hfr : x - (⌊x⌋ : ℚ) ≤ y - (⌊y⌋ : ℚ) := by
      rw [heq]
      linarith
    unfold rne
    simp only
    rw [heq] at hfr ⊢
    split_ifs <;> first | omega | (exfalso; linarith)

/-- An integer below a number is below its rounding. -/
theorem le_rne_of_intCast_le {x : ℚ} {k : ℤ} (h : (k : ℚ) ≤ x) : k ≤ rne x := by
  have := rne_mono h
  rwa [rne_intCast] at this

/-- An integer above a number is above its rounding. -/
theorem rne_le_of_le_intCast {x : ℚ} {k : ℤ} (h : x ≤ (k : ℚ)) : rne x ≤ k := by
  have := rne_mono h
  rwa [rne_intCast] at this

/-- A power of two with a non-negative exponent is an integer. -/
theorem pow2_eq_intCast {k : ℤ} (hk : 0 ≤ k) :
    pow2 k = (((2 : ℤ) ^ k.toNat : ℤ) : ℚ) := by
  unfold pow2
  rw [if_pos hk]
  push_cast
  rfl

/-- Rounding of zero. -/
theorem rnd_zero : rnd 0 = 0 := by
  simp [rnd]

/-- Rounding of a positive number, written out. -/
theorem rnd_of_pos {q : ℚ} (hq : 0 < q) :
    rnd q = (rne (q / pow2 (max (ilog2 q - 52) (-1074))) : ℚ)
      * pow2 (max (ilog2 q - 52) (-1074)) := by
  unfold rnd
  rw [if_neg (ne_of_gt hq)]

/-- On a grid of step `2 ^ u` that contains `2 ^ e`, rounding a number of the binade
`[2 ^ e, 2 ^ (e + 1))` to the grid stays within the closed binade. -/
theorem rne_grid_bounds (q : ℚ) (e u : ℤ) (hu : u ≤ e) (h1 : pow2 e ≤ q)
    (h2 : q < pow2 (e + 1)) :
    pow2 e ≤ (rne (q / pow2 u) : ℚ) * pow2 u ∧
      (rne (q / pow2 u) : ℚ) * pow2 u ≤ pow2 (e + 1) := by
  have hpu := pow2_pos u
  have hk : 0 ≤ e - u := by omega
  have hN : pow2 (e - u) = (((2 : ℤ) ^ (e - u).toNat : ℤ) : ℚ) := pow2_eq_intCast hk
  have hk1 : 0 ≤ e + 1 - u := by omega
  have hN1 : pow2 (e + 1 - u) = (((2 : ℤ) ^ (e + 1 - u).toNat : ℤ) : ℚ) := pow2_eq_intCast hk1
  have he : pow2 e = pow2 (e - u) * pow2 u := by
    rw [← pow2_add]
    congr 1
    ring
  have he1 : pow2 (e + 1) = pow2 (e + 1 - u) * pow2 u := by
    rw [← pow2_add]
    congr 1
    ring
  constructor
  · have hle : pow2 (e - u) ≤ q / pow2 u := by
      rw [le_div_iff₀ hpu, ← he]
      exact h1
    rw [hN] at hle
    have := le_rne_of_intCast_le hle
    have hq : ((((2 : ℤ) ^ (e - u).toNat : ℤ)) : ℚ) ≤ (rne (q / pow2 u) : ℚ) := by
      exact_mod_cast this
    rw [he, hN]
    exact mul_le_mul_of_nonneg_right hq hpu.le
  · have hle : q / pow2 u ≤ pow2 (e + 1 - u) := by
      rw [div_le_iff₀ hpu, ← he1]
      exact h2.le
    rw [hN1] at hle
    have := rne_le_of_le_intCast hle
    have hq : (rne (q / pow2 u) : ℚ) ≤ ((((2 : ℤ) ^ (e + 1 - u).toNat : ℤ)) : ℚ) := by
      exact_mod_cast this
    rw [he1, hN1]
    exact mul_le_mul_of_nonneg_right hq hpu.le

/-- Rounding of a number of exponent at least `-1074` stays within its closed binade. -/
theorem rnd_binade {q : ℚ} (hq : 0 < q) (he : -1074 ≤ ilog2 q) :
    pow2 (ilog2 q) ≤ rnd q ∧ rnd q ≤ pow2 (ilog2 q + 1) := by
  obtain ⟨h1, h2⟩ := ilog2_spec q hq
  rw [rnd_of_pos hq]
  exact rne_grid_bounds q (ilog2 q) _ (by omega) h1 h2

/-- In the normal range, rounding commutes with doubling. -/
theorem rnd_two_mul {q : ℚ} (hq : pow2 (-1022) ≤ q) : rnd (2 * q) = 2 * rnd q := by
  have hpos : 0 < q := lt_of_lt_of_le (pow2_pos _) hq
  have he : -1022 ≤ ilog2 q := by
    have h := ilog2_mono _ _ (pow2_pos (-1022)) hq
    have h0 : ilog2 (pow2 (-1022)) = -1022 :=
      ilog2_unique _ _ (le_refl _) (by
        rw [pow2_succ]
        linarith [pow2_pos (-1022)])
    omega
  have hu : max (ilog2 q - 52) (-1074) = ilog2 q - 52 := by omega
  have hu2 : max (ilog2 (2 * q) - 52) (-1074) = (ilog2 q - 52) + 1 := by
    rw [ilog2_two_mul q hpos]
    omega
  rw [rnd_of_pos hpos, rnd_of_pos (by linarith : 0 < 2 * q), hu, hu2, pow2_succ]
  have hdiv : 2 * q / (2 * pow2 (ilog2 q - 52)) = q / pow2 (ilog2 q - 52) := by
    have := pow2_pos (ilog2 q - 52)
    field_simp
    ring
  rw [hdiv]
  ring

/-- In the normal range the result of rounding is in the normal range and is left
unchanged by rounding. -/
theorem rnd_rnd {q : ℚ} (hq : pow2 (-1022) ≤ q) :
    pow2 (-1022) ≤ rnd q ∧ rnd (rnd q) = rnd q := by
  have hpos : 0 < q := lt_of_lt_of_le (pow2_pos _) hq
  have he : -1022 ≤ ilog2 q := by
    have h := ilog2_mono _ _ (pow2_pos (-1022)) hq
    have h0 : ilog2 (pow2 (-1022)) = -1022 :=
      ilog2_unique _ _ (le_refl _) (by
        rw [pow2_succ]
        linarith [pow2_pos (-1022)])
    omega
  obtain ⟨hb1, hb2⟩ := rnd_binade hpos (by omega)
  have hu : max (ilog2 q - 52) (-1074) = ilog2 q - 52 := by omega
  have hR : rnd q = (rne (q / pow2 (ilog2 q - 52)) : ℚ) * pow2 (ilog2 q - 52) := by
    rw [rnd_of_pos hpos, hu]
  have hRpos : 0 < rnd q := lt_of_lt_of_le (pow2_pos _) hb1
  constructor
  · exact le_trans (pow2_le_pow2 he) hb1
  · rcases lt_or_eq_of_le hb2 with hlt | heq
    · have hlog : ilog2 (rnd q) = ilog2 q := ilog2_unique _ _ hb1 hlt
      rw [rnd_of_pos hRpos, hlog, hu]
      have hdiv : rnd q / pow2 (ilog2 q - 52)
          = ((rne (q / pow2 (ilog2 q - 52)) : ℤ) : ℚ) := by
        rw [hR]
        have := pow2_pos (ilog2 q - 52)
        field_simp
      rw [hdiv, rne_intCast, ← hR]
    · have hlog : ilog2 (rnd q) = ilog2 q + 1 := by
        apply ilog2_unique
        · rw [heq]
        · rw [heq, pow2_succ (ilog2 q + 1)]
          linarith [pow2_pos (ilog2 q + 1)]
      have hu3 : max (ilog2 q + 1 - 52) (-1074) = ilog2 q + 1 - 52 := by omega
      rw [rnd_of_pos hRpos, hlog, hu3]
      have hsplit : pow2 (ilog2 q + 1) = pow2 52 * pow2 (ilog2 q + 1 - 52) := by
        rw [← pow2_add]
        congr 1
        ring
      have h52 : pow2 52 = (((2 : ℤ) ^ (52 : ℤ).toNat : ℤ) : ℚ) :=
        pow2_eq_intCast (by norm_num)
      have hdiv : rnd q / pow2 (ilog2 q + 1 - 52)
          = (((2 : ℤ) ^ (52 : ℤ).toNat : ℤ) : ℚ) := by
        rw [heq, hsplit, h52]
        have := pow2_pos (ilog2 q + 1 - 52)
        field_simp
      rw [hdiv, rne_intCast, ← h52, ← hsplit, heq]

/-- Doubling a representable magnitude gives a magnitude that rounding leaves
unchanged. -/
theorem rnd_two_mul_of_fixed {m : ℚ} (h0 : 0 ≤ m) (hfix : rnd m = m) :
    rnd (2 * m) = 2 * m := by
  rcases eq_or_lt_of_le h0 with hz | hpos
  · rw [← hz]
    simp [rnd_zero]
  · by_cases hn : pow2 (-1022) ≤ m
    · rw [rnd_two_mul hn, hfix]
    · have hlt : m < pow2 (-1022) := not_le.mp hn
      have he : ilog2 m < -1022 := by
        obtain ⟨h1, _⟩ := ilog2_spec m hpos
        by_contra hc
        have : pow2 (-1022) ≤ pow2 (ilog2 m) := pow2_le_pow2 (by omega)
        linarith
      have hu : max (ilog2 m - 52) (-1074) = -1074 := by omega
      have hu2 : max (ilog2 (2 * m) - 52) (-1074) = -1074 := by
        rw [ilog2_two_mul m hpos]
        omega
      have hm : m = (rne (m / pow2 (-1074)) : ℚ) * pow2 (-1074) := by
        have := rnd_of_pos hpos
        rw [hu, hfix] at this
        exact this
      have hdiv : 2 * m / pow2 (-1074) = ((2 * rne (m / pow2 (-1074)) : ℤ) : ℚ) := by
        have hp := pow2_pos (-1074)
        rw [div_eq_iff (ne_of_gt hp)]
        push_cast
        nth_rewrite 1 [hm]
        ring
      rw [rnd_of_pos (by linarith : 0 < 2 * m), hu2, hdiv, rne_intCast]
      push_cast
      nth_rewrite 2 [hm]
      ring

/-! ## Binary64: agreement with well-known values -/

/-- The literal 0.1 is the double `0x1.999999999999ap-4`. -/
theorem lit_tenth : lit 0.1 = fin false (3602879701896397 / 36028797018963968) := by
  decide!

/-- The sum `0.1 + 0.2` is the double 0.30000000000000004, not the literal 0.3. -/
theorem tenth_add_fifth :
    add (lit 0.1) (lit 0.2) = fin false (1351079888211149 / 4503599627370496) ∧
      lit 0.3 = fin false (5404319552844595 / 18014398509481984) ∧
      F64.eq (add (lit 0.1) (lit 0.2)) (lit 0.3) = false := by
  decide!

/-- The quotient `1.0 / 3.0` is the double `0x1.5555555555555p-2`. -/
theorem one_div_three :
    div (lit 1) (lit 3) = fin false (6004799503160661 / 18014398509481984) := by
  decide!

/-- The largest finite double is `2 ^ 1024 - 2 ^ 971`; doubling it overflows, and so
does adding half a unit in the last place, while adding less does not. -/
theorem overflow_threshold :
    IsDouble (fin false (pow2 1024 - pow2 971)) ∧
      mul (lit 2) (fin false (pow2 1024 - pow2 971)) = inf false ∧
      add (fin false (pow2 1024 - pow2 971)) (fin false (pow2 970)) = inf false ∧
      add (fin false (pow2 1024 - pow2 971)) (fin false (pow2 969)) =
        fin false (pow2 1024 - pow2 971) := by
  decide!

/-- The least positive double is `2 ^ (-1074)`: half of it is a tie and rounds to the
even neighbour 0, three halves of it round to the even neighbour `2 ^ (-1073)`. -/
theorem underflow_ties :
    IsDouble (fin false (pow2 (-1074))) ∧
      mul (lit 0.5) (fin false (pow2 (-1074))) = fin false 0 ∧
      mul (lit 1.5) (fin false (pow2 (-1074))) = fin false (pow2 (-1073)) ∧
      mul (lit 0.5) (fin true (pow2 (-1074))) = fin true 0 := by
  decide!

/-- Division by zero and the invalid operations follow the standard. -/
theorem special_values :
    div (lit 1) (lit 0) = inf false ∧
      div (neg (lit 1)) (lit 0) = inf true ∧
      div (lit 1) (neg (lit 0)) = inf true ∧
      div (lit 0) (lit 0) = nan ∧
      mul (inf false) (lit 0) = nan ∧
      sub (inf false) (inf false) = nan ∧
      add (neg (lit 0)) (lit 0) = fin false 0 ∧
      add (neg (lit 0)) (neg (lit 0)) = fin true 0 ∧
      sub (lit 1) (lit 1) = fin false 0 ∧
      F64.eq (neg (lit 0)) (lit 0) = true ∧
      lt nan (lit 0) = false ∧
      ge nan (lit 0) = false := by
  decide!

/-! ## Binary64: position, custom wind and step index -/

/-- The literal 0 is the positive zero. -/
theorem lit_zero : lit 0 = fin false 0 := by
  decide!

/-- The comparison `<` is asymmetric. -/
theorem lt_asymm_false {a b : F64} (h : lt a b = true) : lt b a = false := by
  cases a with
  | nan => simp [lt] at h
  | inf s =>
    cases b with
    | nan => simp [lt] at h
    | inf t =>
      cases s <;> cases t <;> simp_all [lt]
    | fin t n =>
      cases s <;> simp_all [lt]
  | fin s m =>
    cases b with
    | nan => simp [lt] at h
    | inf t =>
      cases t <;> simp_all [lt]
    | fin t n =>
      simp only [lt, decide_eq_true_eq] at h
      simp only [lt, decide_eq_false_iff_not, not_lt]
      exact le_of_lt h

/-- A double that is not below zero is at least zero or is a NaN. -/
theorem ge_zero_or_nan_of_not_lt {x : F64} (h : lt x (lit 0) = false) :
    ge x (lit 0) = true ∨ x = nan := by
  rw [lit_zero] at h ⊢
  cases x with
  | nan => right; rfl
  | inf s =>
    left
    simp_all [lt, ge, le]
  | fin s m =>
    left
    simp_all [lt, ge, le]

/-- Zero is not below zero. -/
theorem lt_zero_zero : lt (lit 0) (lit 0) = false := by
  decide!

/-- The position that leaves the ground clamp is never below zero. -/
theorem groundClamp_snd_not_lt (vp : F64 × F64) : lt (groundClamp vp).2 (lit 0) = false := by
  unfold groundClamp
  by_cases h : lt vp.2 (lit 0) = true
  · rw [if_pos h]
    exact lt_zero_zero
  · rw [if_neg h]
    simpa using h

/-- The state after `n + 1` ticks is the loop body applied to the state after `n`. -/
theorem ticks_succ64 (env : Env) (p : Params) (n : Nat) :
    ticks env p (n + 1) = loopBody env p (ticks env p n) := by
  simp only [ticks, Function.iterate_succ_apply']

/-- C2, amended: in binary64, when `initialHeight > 0`, the position after any number of
ticks is never below zero: it is at least zero, or it is a NaN. -/
theorem position_never_negative (env : Env) (p : Params)
    (hpos : lt (lit 0) p.initialHeight = true) (n : Nat) :
    lt (ticks env p n).position (lit 0) = false ∧
      (ge (ticks env p n).position (lit 0) = true ∨ (ticks env p n).position = nan) := by
  have h : lt (ticks env p n).position (lit 0) = false := by
    cases n with
    | zero => exact lt_asymm_false hpos
    | succ n =>
      rw [ticks_succ64]
      exact groundClamp_snd_not_lt _
  exact ⟨h, ge_zero_or_nan_of_not_lt h⟩

/-- Witness for C2, amended: the pure-gravity run after 29 ticks, the tick of its first
bounce. -/
theorem position_never_negative_witness :
    lt (ticks unitEnv gravityRun 29).position (lit 0) = false ∧
      (ge (ticks unitEnv gravityRun 29).position (lit 0) = true ∨
        (ticks unitEnv gravityRun 29).position = nan) :=
  position_never_negative unitEnv gravityRun (by decide!) 29

/-- C10, amended: in binary64, for `initialHeight > 0`, whenever the double value of
`((initialHeight - position) / initialHeight) * 20` is finite and its integer part is an
`int`, the step index is that integer part (the fractional part is discarded, nothing
is rounded to nearest) clamped to the range 0..19. -/
theorem currentStepOf_integer_part (indefinite : Int) (position initialHeight : F64)
    (_hpos : lt (lit 0) initialHeight = true)
    (hrange : inIntRange (stepValue position initialHeight) = true) :
    currentStepOf indefinite position initialHeight =
        max 0 (min 19 (trunc (stepValue position initialHeight))) ∧
      0 ≤ currentStepOf indefinite position initialHeight ∧
      currentStepOf indefinite position initialHeight ≤ 19 := by
  have h : currentStepOf indefinite position initialHeight =
      max 0 (min 19 (trunc (stepValue position initialHeight))) := by
    simp only [currentStepOf, F64.toInt, hrange, if_true]
    split_ifs <;> omega
  refine ⟨h, ?_, ?_⟩
  · rw [h]
    omega
  · rw [h]
    omega

/-- Witness for C10, amended, at the position after tick 5 of the pure-gravity run. -/
theorem currentStepOf_integer_part_witness :
    currentStepOf unitEnv.intIndefinite (ticks unitEnv gravityRun 5).position (lit 10) =
      max 0 (min 19 (trunc (stepValue (ticks unitEnv gravityRun 5).position (lit 10)))) :=
  (currentStepOf_integer_part unitEnv.intIndefinite (ticks unitEnv gravityRun 5).position
    (lit 10) (by decide!) (by decide!)).1

/-! ## Binary64: a run with mass 0 -/

/-- A power of two is not below or equal to zero. -/
theorem not_pow2_le_zero (k : ℤ) : ¬ pow2 k ≤ 0 :=
  not_le.mpr (pow2_pos k)

/-- An exact result of magnitude 0 is a zero. -/
theorem ofRat_zero (s : Bool) : ofRat s 0 = fin s 0 := by
  simp only [ofRat, rnd_zero, if_neg (not_pow2_le_zero 1024)]

/-- A product with a zero is a NaN or a zero. -/
theorem mul_zero_cases (x : F64) (t : Bool) :
    mul x (fin t 0) = nan ∨ ∃ s, mul x (fin t 0) = fin s 0 := by
  cases x with
  | nan => left; rfl
  | inf s => left; simp [mul]
  | fin s m =>
    right
    refine ⟨xor s t, ?_⟩
    simp only [mul, mul_zero, ofRat_zero]

/-- A sum with a NaN is a NaN. -/
theorem add_nan_right (x : F64) : add x nan = nan := by
  cases x <;> rfl

/-- With gravity force 0, a drag force that is a NaN or a zero and wind 0, the net force
divided by the mass 0 is a NaN. -/
theorem zero_div_zero_nan (D : F64) (hD : D = nan ∨ ∃ s, D = fin s 0) :
    div (add (sub (fin false 0) D) (fin false 0)) (fin false 0) = nan := by
  rcases hD with h | ⟨s, h⟩
  · subst h
    rfl
  · subst h
    cases s <;> simp [sub, neg, add, div, toRat]

/-- The acceleration of the first tick of a run with mass 0 from rest is a NaN,
whatever the library functions return. -/
theorem massless_acceleration (env : Env) :
    (forces env (mainParams (lit 0) (lit 0) (lit 10) 1 (lit 0))
      (initialState (mainParams (lit 0) (lit 0) (lit 10) 1 (lit 0)))).acceleration = nan := by
  have hG : calculateGravitationalForce (lit 0) = fin false 0 := by decide!
  have hW : mul (lit 0.0) (lit 1.0) = fin false 0 := by decide!
  have hZ : F64.abs (lit 0) = fin false 0 := by decide!
  have hM : lit 0 = fin false 0 := lit_zero
  have hA : adjustDragCoefficient (lit 0.47) (lit 0.0) = lit 0.47 := by decide!
  show div (add (sub (calculateGravitationalForce (lit 0))
    (calculateDragForce (adjustDragCoefficient (lit 0.47) (lit 0.0)) (lit 0.01)
      (calculateAirDensity env.exp (lit 10)) (F64.abs (lit 0)))) (mul (lit 0.0) (lit 1.0)))
    (lit 0) = nan
  rw [hG, hW, hZ, hM, hA]
  apply zero_div_zero_nan
  unfold calculateDragForce
  rcases mul_zero_cases
    (mul (mul (mul (lit 0.5) (lit 0.47)) (lit 0.01)) (calculateAirDensity env.exp (lit 10)))
    false with h | ⟨s, h⟩
  · left
    rw [h]
    rfl
  · rw [h]
    right
    exact ⟨xor s false, by simp only [mul, mul_zero, ofRat_zero]⟩

/-- C2 fails as stated in binary64.  With the arguments of `main`, no wind, initial
height 10 and initial velocity 0, an object of mass 0 has acceleration `0.0 / 0.0`, a
NaN, so after the first tick the position is a NaN, which the ground clamp leaves alone
and which is not `>= 0`; this holds whatever `exp`, `sin` and `rand` return. -/
theorem position_nan_of_zero_mass :
    lt (lit 0) (mainParams (lit 0) (lit 0) (lit 10) 1 (lit 0)).initialHeight = true ∧
      (∀ env : Env,
        (ticks env (mainParams (lit 0) (lit 0) (lit 10) 1 (lit 0)) 1).position = nan) ∧
      ¬ ∃ env : Env,
        ge (ticks env (mainParams (lit 0) (lit 0) (lit 10) 1 (lit 0)) 1).position (lit 0)
          = true := by
  have hnan : ∀ env : Env,
      (ticks env (mainParams (lit 0) (lit 0) (lit 10) 1 (lit 0)) 1).position = nan := by
    intro env
    have hacc := massless_acceleration env
    show (groundClamp (eulerUpdate
      (forces env (mainParams (lit 0) (lit 0) (lit 10) 1 (lit 0))
        (initialState (mainParams (lit 0) (lit 0) (lit 10) 1 (lit 0)))).acceleration
      (lit 0) (lit 10))).2 = nan
    rw [hacc]
    have he : eulerUpdate nan (lit 0) (lit 10) = (nan, nan) := by
      simp only [eulerUpdate, mul, add_nan_right, sub, neg]
    rw [he]
    simp [groundClamp, lt]
  refine ⟨by decide!, hnan, ?_⟩
  rintro ⟨env, h⟩
  rw [hnan env, lit_zero] at h
  simp [ge, le] at h

/-! ## Binary64: air density -/

/-- The literal 2 is the double 2. -/
theorem lit_two : lit 2 = fin false 2 := by
  decide!

/-- The literal 4 is the double 4. -/
theorem lit_four : lit 4 = fin false 4 := by
  decide!

/-- A result that does not overflow is the rounded exact value. -/
theorem ofRat_of_not_overflow (s : Bool) (q : ℚ) (h : ¬ pow2 1024 ≤ rnd q) :
    ofRat s q = fin s (rnd q) := by
  simp only [ofRat, if_neg h]

/-- A result that overflows is an infinity. -/
theorem ofRat_of_overflow (s : Bool) (q : ℚ) (h : pow2 1024 ≤ rnd q) :
    ofRat s q = inf s := by
  simp only [ofRat, if_pos h]

/-- In the normal range, rounding commutes with multiplication by 4. -/
theorem rnd_four_mul {q : ℚ} (hq : pow2 (-1022) ≤ q) : rnd (4 * q) = 4 * rnd q := by
  have hpos : 0 < q := lt_of_lt_of_le (pow2_pos _) hq
  have h2 : pow2 (-1022) ≤ 2 * q := by linarith
  have : 4 * q = 2 * (2 * q) := by ring
  rw [this, rnd_two_mul h2, rnd_two_mul hq]
  ring

/-- C7, amended: in binary64, `calculateDragForce c ar d 0 == 0` whenever the product
`0.5 * c * ar * d` is finite; and `calculateDragForce c ar d (2 * v)` is
`4 * calculateDragForce c ar d v` whenever `v` is a double, neither of the two products
by `v` underflows (each has exact magnitude at least `2 ^ (-1022)`) and the result for
`2 * v` is finite. -/
theorem calculateDragForce_quadratic_binary64 (c ar d v : F64) :
    (isFinite (mul (mul (mul (lit 0.5) c) ar) d) = true →
        F64.eq (calculateDragForce c ar d (lit 0)) (lit 0) = true) ∧
      (IsDouble v →
        pow2 (-1022) ≤ mag (mul (mul (mul (lit 0.5) c) ar) d) * mag v →
        pow2 (-1022) ≤ mag (mul (mul (mul (mul (lit 0.5) c) ar) d) v) * mag v →
        isFinite (calculateDragForce c ar d (mul (lit 2) v)) = true →
        calculateDragForce c ar d (mul (lit 2) v) =
            mul (lit 4) (calculateDragForce c ar d v) ∧
          F64.eq (calculateDragForce c ar d (mul (lit 2) v))
            (mul (lit 4) (calculateDragForce c ar d v)) = true) := by
  unfold calculateDragForce
  generalize mul (mul (mul (lit 0.5) c) ar) d = P
  constructor
  · intro hfin
    rw [lit_zero]
    cases P with
    | nan => simp [isFinite] at hfin
    | inf s => simp [isFinite] at hfin
    | fin s p =>
      simp only [mul, mul_zero, ofRat_zero]
      simp [F64.eq, toRat]
  · intro hv h1 h2 h3
    have hp1022 := pow2_pos (-1022)
    cases P with
    | nan =>
      simp only [mag, zero_mul] at h1
      linarith
    | inf s =>
      simp only [mag, zero_mul] at h1
      linarith
    | fin sp p =>
      cases v with
      | nan =>
        simp only [mag, mul_zero] at h1
        linarith
      | inf s =>
        simp only [mag, mul_zero] at h1
        linarith
      | fin sv m =>
        have hm0 : 0 ≤ m := hv.1
        have hfix : rnd m = m := hv.2.2
        simp only [mag] at h1
        have hm2 : rnd (2 * m) = 2 * m := rnd_two_mul_of_fixed hm0 hfix
        have hmne : m ≠ 0 := by
          intro hz
          rw [hz, mul_zero] at h1
          linarith
        -- the first product by `v` does not overflow
        have hPv : mul (fin sp p) (fin sv m) = fin (xor sp sv) (rnd (p * m)) := by
          by_cases ho : pow2 1024 ≤ rnd (p * m)
          · have : mul (fin sp p) (fin sv m) = inf (xor sp sv) := by
              simp only [mul]
              exact ofRat_of_overflow _ _ ho
            rw [this] at h2
            simp only [mag, zero_mul] at h2
            linarith
          · simp only [mul]
            exact ofRat_of_not_overflow _ _ ho
        rw [hPv] at h2 ⊢
        simp only [mag] at h2
        obtain ⟨hR1, hRfix⟩ := rnd_rnd h2
        -- `2 * v` is finite
        have h2v : mul (lit 2) (fin sv m) = fin sv (2 * m) := by
          rw [lit_two]
          simp only [mul, Bool.false_xor]
          by_cases ho : pow2 1024 ≤ rnd (2 * m)
          · exfalso
            rw [lit_two] at h3
            simp only [mul, Bool.false_xor] at h3
            rw [ofRat_of_overflow _ _ ho] at h3
            have hp0 : p ≠ 0 := by
              intro hz
              rw [hz, zero_mul] at h1
              linarith
            simp [mul, hp0, isFinite] at h3
          · rw [ofRat_of_not_overflow _ _ ho, hm2]
        rw [h2v] at h3 ⊢
        -- the first product by `2 * v`
        have hr1 : rnd (p * (2 * m)) = 2 * rnd (p * m) := by
          have : p * (2 * m) = 2 * (p * m) := by ring
          rw [this, rnd_two_mul h1]
        have hx2 : mul (fin sp p) (fin sv (2 * m)) = fin (xor sp sv) (2 * rnd (p * m)) := by
          simp only [mul]
          by_cases ho : pow2 1024 ≤ rnd (p * (2 * m))
          · exfalso
            simp only [mul] at h3
            rw [ofRat_of_overflow _ _ ho] at h3
            have h2m : 2 * m ≠ 0 := by
              intro hz
              apply hmne
              linarith
            simp [mul, h2m, isFinite] at h3
          · rw [ofRat_of_not_overflow _ _ ho, hr1]
        rw [hx2] at h3 ⊢
        -- the second products
        have hr2 : rnd (2 * rnd (p * m) * (2 * m)) = 4 * rnd (rnd (p * m) * m) := by
          have : 2 * rnd (p * m) * (2 * m) = 4 * (rnd (p * m) * m) := by ring
          rw [this, rnd_four_mul h2]
        have hno : ¬ pow2 1024 ≤ 4 * rnd (rnd (p * m) * m) := by
          intro ho
          simp only [mul] at h3
          rw [ofRat_of_overflow _ _ (by rw [hr2]; exact ho)] at h3
          simp [isFinite] at h3
        have hL : mul (fin (xor sp sv) (2 * rnd (p * m))) (fin sv (2 * m)) =
            fin (xor (xor sp sv) sv) (4 * rnd (rnd (p * m) * m)) := by
          simp only [mul]
          rw [ofRat_of_not_overflow _ _ (by rw [hr2]; exact hno), hr2]
        have hRpos : 0 < rnd (rnd (p * m) * m) := lt_of_lt_of_le hp1022 hR1
        have hno1 : ¬ pow2 1024 ≤ rnd (rnd (p * m) * m) := by
          intro ho
          apply hno
          linarith
        have hf : mul (fin (xor sp sv) (rnd (p * m))) (fin sv m) =
            fin (xor (xor sp sv) sv) (rnd (rnd (p * m) * m)) := by
          simp only [mul]
          exact ofRat_of_not_overflow _ _ hno1
        have hr4 : rnd (4 * rnd (rnd (p * m) * m)) = 4 * rnd (rnd (p * m) * m) := by
          rw [rnd_four_mul hR1, hRfix]
        have hRHS : mul (lit 4) (fin (xor (xor sp sv) sv) (rnd (rnd (p * m) * m))) =
            fin (xor (xor sp sv) sv) (4 * rnd (rnd (p * m) * m)) := by
          rw [lit_four]
          simp only [mul, Bool.false_xor]
          rw [ofRat_of_not_overflow _ _ (by rw [hr4]; exact hno), hr4]
        rw [hL, hf, hRHS]
        refine ⟨rfl, ?_⟩
        simp [F64.eq]

/-- Witness for C7, amended: the coefficients of `main` (drag coefficient 0.47, area
0.01, air density 1.225) at the speed 2. -/
theorem calculateDragForce_quadratic_binary64_witness :
    F64.eq (calculateDragForce (lit 0.47) (lit 0.01) (lit 1.225) (lit 0)) (lit 0) = true ∧
      F64.eq (calculateDragForce (lit 0.47) (lit 0.01) (lit 1.225) (mul (lit 2) (lit 2)))
        (mul (lit 4) (calculateDragForce (lit 0.47) (lit 0.01) (lit 1.225) (lit 2))) = true :=
  ⟨(calculateDragForce_quadratic_binary64 (lit 0.47) (lit 0.01) (lit 1.225) (lit 2)).1
      (by decide!),
    ((calculateDragForce_quadratic_binary64 (lit 0.47) (lit 0.01) (lit 1.225) (lit 2)).2
      (by decide!) (by decide!) (by decide!) (by decide!)).2⟩

/-! ## Binary64: counterexamples -/

/-- C7 fails as stated in binary64.  With `c = ar = d = 1` and `v = 3 * 2 ^ (-539)` the
products for `v` underflow to 0 while those for `2 * v` give the least positive double,
so `calculateDragForce c ar d (2 * v)` is not `4 * calculateDragForce c ar d v`; and
with `c = ar = 2 ^ 1000` the product `0.5 * c * ar` overflows, so the force at speed 0
is a NaN and not 0. -/
theorem calculateDragForce_not_quadratic :
    IsDouble (fin false (3 / 2 ^ 539)) ∧
      calculateDragForce (lit 1) (lit 1) (lit 1) (mul (lit 2) (fin false (3 / 2 ^ 539))) =
        fin false (1 / 2 ^ 1074) ∧
      mul (lit 4) (calculateDragForce (lit 1) (lit 1) (lit 1) (fin false (3 / 2 ^ 539))) =
        fin false 0 ∧
      F64.eq
        (calculateDragForce (lit 1) (lit 1) (lit 1) (mul (lit 2) (fin false (3 / 2 ^ 539))))
        (mul (lit 4) (calculateDragForce (lit 1) (lit 1) (lit 1) (fin false (3 / 2 ^ 539))))
        = false ∧
      IsDouble (fin false (2 ^ 1000)) ∧
      calculateDragForce (fin false (2 ^ 1000)) (fin false (2 ^ 1000)) (lit 1) (lit 0) = nan ∧
      F64.eq (calculateDragForce (fin false (2 ^ 1000)) (fin false (2 ^ 1000)) (lit 1) (lit 0))
        (lit 0) = false := by
  decide!

/-- C10 fails as stated, also in binary64: after tick 5 of the pure-gravity run the
position is the double 9.632125 (to 16 digits), the value
`((10 - position) / 10) * 20` is about 0.73575, the program computes the step index 0
and rounding gives 1. -/
theorem currentStepOf_not_round :
    lt (lit 0) gravityRun.initialHeight = true ∧
      (ticks unitEnv gravityRun 5).position =
        fin false (5422404320098255 / 562949953421312) ∧
      currentStepOf unitEnv.intIndefinite (ticks unitEnv gravityRun 5).position
        gravityRun.initialHeight = 0 ∧
      specStepIndex (ticks unitEnv gravityRun 5).position gravityRun.initialHeight = 1 := by
  decide!

end Binary64

end PhysicsSim
